import Mathlib

/-!
Verification of the Bloom filter in `src/BloomFilter.py`.

The Python class `BloomFilter` keeps three bit arrays (one per hash
function) and an integer `size`.  We embed it shallowly: the mutable
object becomes a Lean structure, each method becomes a function that
returns `Except PyError _` (Python raises `ZeroDivisionError` on
`x % 0` and `IndexError` on an out-of-range list subscript, and the
constructor itself never raises).  Python machine-level details that
matter are modelled exactly: `%` on `int` is floor modulus
(`Int.fmod`), `[0] * n` for `n ≤ 0` is the empty list, and list
subscripts accept negative indices counting from the end.

The three digests `int(hashlib.md5(b).hexdigest(), 16)` (and sha1,
sha256) are arbitrary deterministic functions from the canonical
string of the item to natural numbers; every claim below holds for
any choice of digest functions, so the development is parameterised
by a `HashAlgs` record rather than by a re-implementation of the
specific algorithms.  The call `str(item).encode('utf-8')` is an
injective function of `str(item)`, so the digests are modelled as
functions of the string form directly.
-/

/-- Python runtime errors that the embedded operations can raise. -/
inductive PyError where
  | zeroDivisionError
  | indexError
deriving DecidableEq, Repr

/-- Normalise a Python list subscript: a negative index counts from the
end; the result is `some j` with `j < len` exactly when the subscript is
in range, otherwise `none` (Python raises `IndexError`). -/
def pyIdx (len : Nat) (i : Int) : Option Nat :=
  let j : Int := if i < 0 then i + len else i
  if 0 ≤ j ∧ j < (len : Int) then some j.toNat else none

/-- Python list read `l[i]`. -/
def listGetPy (l : List γ) (i : Int) : Except PyError γ :=
  match pyIdx l.length i with
  | some j =>
    match l.get? j with
    | some v => Except.ok v
    | none => Except.error PyError.indexError
  | none => Except.error PyError.indexError

/-- Python list write `l[i] = v` (functionally: the updated list). -/
def listSetPy (l : List γ) (i : Int) (v : γ) : Except PyError (List γ) :=
  match pyIdx l.length i with
  | some j => Except.ok (l.set j v)
  | none => Except.error PyError.indexError

/-- Python integer modulus `a % b`: floor modulus, raising
`ZeroDivisionError` when `b = 0`. -/
def pyMod (a b : Int) : Except PyError Int :=
  if b = 0 then Except.error PyError.zeroDivisionError else Except.ok (Int.fmod a b)

/-- The three fixed digest functions.  `md5 s` stands for
`int(hashlib.md5(s.encode('utf-8')).hexdigest(), 16)` — a deterministic
natural number computed from the canonical string `s` — and likewise
for `sha1` and `sha256`.  All results below hold for every choice of
digest functions. -/
structure HashAlgs where
  md5 : String → Nat
  sha1 : String → Nat
  sha256 : String → Nat

/-- The state of a `BloomFilter` object: the `size` field and the three
bit arrays (`self.bit_arrays`). -/
structure BloomFilter where
  size : Int
  bit_arrays : List (List Nat)
deriving DecidableEq, Repr

/-- `BloomFilter.__init__`: `self.size = size;
self.bit_arrays = [[0] * self.size for _ in range(3)]`.
Note `[0] * n` in Python is empty for `n ≤ 0`, i.e. `n.toNat` zeros. -/
def BloomFilter.new (size : Int := 100) : BloomFilter :=
  { size := size, bit_arrays := List.replicate 3 (List.replicate size.toNat 0) }

/-- `BloomFilter._hashes(item)`: stringify the item, take the three
digests, reduce each modulo `self.size`, in the fixed order
md5, sha1, sha256. -/
def BloomFilter.hashes (H : HashAlgs) (str : α → String) (self : BloomFilter)
    (item : α) : Except PyError (List Int) := do
  let item_str := str item
  let hash1 ← pyMod (H.md5 item_str) self.size
  let hash2 ← pyMod (H.sha1 item_str) self.size
  let hash3 ← pyMod (H.sha256 item_str) self.size
  return [hash1, hash2, hash3]

/-- The loop body of `BloomFilter.add`:
`for index, hash_val in enumerate(...): self.bit_arrays[index][hash_val] = 1`,
threading the mutated list of arrays. -/
def addLoop (arrays : List (List Nat)) (hs : List Int) (index : Nat) :
    Except PyError (List (List Nat)) :=
  match hs with
  | [] => Except.ok arrays
  | hash_val :: rest => do
    let arr ← listGetPy arrays (index : Int)
    let arr2 ← listSetPy arr hash_val 1
    let arrays2 ← listSetPy arrays (index : Int) arr2
    addLoop arrays2 rest (index + 1)

/-- `BloomFilter.add(item)`. -/
def BloomFilter.add (H : HashAlgs) (str : α → String) (self : BloomFilter)
    (item : α) : Except PyError BloomFilter := do
  let hs ← self.hashes H str item
  let arrays ← addLoop self.bit_arrays hs 0
  return { self with bit_arrays := arrays }

/-- The loop of `BloomFilter.check`:
`if self.bit_arrays[index][hash_val] == 0: return False`, then
`return True` after the loop. -/
def checkLoop (arrays : List (List Nat)) (hs : List Int) (index : Nat) :
    Except PyError Bool :=
  match hs with
  | [] => Except.ok true
  | hash_val :: rest => do
    let arr ← listGetPy arrays (index : Int)
    let v ← listGetPy arr hash_val
    if v = 0 then Except.ok false else checkLoop arrays rest (index + 1)

/-- `BloomFilter.check(item)`. -/
def BloomFilter.check (H : HashAlgs) (str : α → String) (self : BloomFilter)
    (item : α) : Except PyError Bool := do
  let hs ← self.hashes H str item
  checkLoop self.bit_arrays hs 0

/-- `BloomFilter.check` as an explicit state transformer: the same
statement-by-statement translation, but threading the object state so
that any mutation the method performed would be visible in the returned
state.  The method body contains no assignment, so the threaded state is
passed through unchanged; the frame theorem for `check` is stated
against this version. -/
def checkLoopS (self : BloomFilter) (hs : List Int) (index : Nat) :
    Except PyError (Bool × BloomFilter) :=
  match hs with
  | [] => Except.ok (true, self)
  | hash_val :: rest => do
    let arr ← listGetPy self.bit_arrays (index : Int)
    let v ← listGetPy arr hash_val
    if v = 0 then Except.ok (false, self) else checkLoopS self rest (index + 1)

/-- `BloomFilter.check(item)` with the object state threaded. -/
def BloomFilter.checkS (H : HashAlgs) (str : α → String) (self : BloomFilter)
    (item : α) : Except PyError (Bool × BloomFilter) := do
  let hs ← self.hashes H str item
  checkLoopS self hs 0

/-- Run a sequence of `add` calls, left to right. -/
def BloomFilter.addAll (H : HashAlgs) (str : α → String) (self : BloomFilter)
    (items : List α) : Except PyError BloomFilter :=
  match items with
  | [] => Except.ok self
  | x :: xs => do
    let bf ← self.add H str x
    bf.addAll H str xs

/-- Well-formedness of a filter state: positive size, exactly three bit
arrays, each of length `size` and holding only bits 0/1.  Every filter
built by `new` with a positive size satisfies this, and `add` preserves
it. -/
def Wf (bf : BloomFilter) : Prop :=
  0 < bf.size ∧ bf.bit_arrays.length = 3 ∧
    ∀ arr ∈ bf.bit_arrays, arr.length = bf.size.toNat ∧ ∀ b ∈ arr, b = 0 ∨ b = 1

instance : DecidablePred Wf := fun bf => by
  unfold Wf; infer_instance

/-- Bitwise growth: same size and array shape, and every bit set in the
first state is set in the second. -/
def BitsLE (bf bf2 : BloomFilter) : Prop :=
  bf2.size = bf.size ∧ bf2.bit_arrays.length = bf.bit_arrays.length ∧
    ∀ i, (bf2.bit_arrays.getD i []).length = (bf.bit_arrays.getD i []).length ∧
      ∀ j, (bf.bit_arrays.getD i []).getD j 0 = 1 →
        (bf2.bit_arrays.getD i []).getD j 0 = 1

/-- The first hash position of `item` in filter `bf`:
`int(md5(str(item)), 16) % size`, as a natural number (meaningful when
`0 < bf.size`, in which case the floor modulus is non-negative). -/
def hpos1 (H : HashAlgs) (str : α → String) (bf : BloomFilter) (x : α) : Nat :=
  (Int.fmod (H.md5 (str x)) bf.size).toNat

/-- The second hash position (sha1 digest). -/
def hpos2 (H : HashAlgs) (str : α → String) (bf : BloomFilter) (x : α) : Nat :=
  (Int.fmod (H.sha1 (str x)) bf.size).toNat

/-- The third hash position (sha256 digest). -/
def hpos3 (H : HashAlgs) (str : α → String) (bf : BloomFilter) (x : α) : Nat :=
  (Int.fmod (H.sha256 (str x)) bf.size).toNat

/-- Modelled from the spec (§4.1, §7): the constructor the spec
describes, which raises `InvalidCapacity` for `size ≤ 0`; the source
constructor performs no such validation.  Used only to state the
divergence for the construction-validation claim. -/
inductive SpecError where
  | invalidCapacity
deriving DecidableEq, Repr

/-- Modelled from the spec: `new(size)` failing with `InvalidCapacity`
when `size ≤ 0`, otherwise yielding the all-clear filter. -/
def specNew (size : Int) : Except SpecError BloomFilter :=
  if size ≤ 0 then Except.error SpecError.invalidCapacity
  else Except.ok (BloomFilter.new size)

/-- A concrete choice of digest functions, used only to evaluate the
universally quantified theorems on explicit inputs. -/
def demoAlgs : HashAlgs :=
  { md5 := fun s => s.length
    sha1 := fun s => 2 * s.length + 1
    sha256 := fun s => 3 * s.length + 5 }

theorem pyIdx_eq {len : Nat} {i : Int} (h0 : 0 ≤ i) (h : i < (len : Int)) :
    pyIdx len i = some i.toNat := by
  unfold pyIdx
  rw [if_neg (show ¬ i < 0 by omega)]
  exact if_pos ⟨h0, h⟩

theorem listGetPy_eq {γ : Type u} (d : γ) {l : List γ} {i : Int} (h0 : 0 ≤ i)
    (h : i.toNat < l.length) : listGetPy l i = Except.ok (l.getD i.toNat d) := by
  unfold listGetPy
  rw [pyIdx_eq h0 (by omega)]
  simp [List.getElem?_eq_getElem h]

theorem listSetPy_eq {γ : Type u} {l : List γ} {i : Int} (v : γ) (h0 : 0 ≤ i)
    (h : i.toNat < l.length) : listSetPy l i v = Except.ok (l.set i.toNat v) := by
  unfold listSetPy
  rw [pyIdx_eq h0 (by omega)]

theorem listGetPy3_0 {γ : Type u} (a b c : γ) :
    listGetPy [a, b, c] (0 : Int) = Except.ok a := by
  simp [listGetPy, pyIdx]

theorem listGetPy3_1 {γ : Type u} (a b c : γ) :
    listGetPy [a, b, c] (1 : Int) = Except.ok b := by
  simp [listGetPy, pyIdx]

theorem listGetPy3_2 {γ : Type u} (a b c : γ) :
    listGetPy [a, b, c] (2 : Int) = Except.ok c := by
  simp [listGetPy, pyIdx]

theorem listSetPy3_0 {γ : Type u} (a b c v : γ) :
    listSetPy [a, b, c] (0 : Int) v = Except.ok [v, b, c] := by
  simp [listSetPy, pyIdx]

theorem listSetPy3_1 {γ : Type u} (a b c v : γ) :
    listSetPy [a, b, c] (1 : Int) v = Except.ok [a, v, c] := by
  simp [listSetPy, pyIdx]

theorem listSetPy3_2 {γ : Type u} (a b c v : γ) :
    listSetPy [a, b, c] (2 : Int) v = Except.ok [a, b, v] := by
  simp [listSetPy, pyIdx]

theorem hashes_eq (H : HashAlgs) (str : α → String) (bf : BloomFilter)
    (hpos : 0 < bf.size) (x : α) :
    bf.hashes H str x = Except.ok
      [Int.fmod (H.md5 (str x)) bf.size,
       Int.fmod (H.sha1 (str x)) bf.size,
       Int.fmod (H.sha256 (str x)) bf.size] := by
  have hne : bf.size ≠ 0 := by omega
  simp [BloomFilter.hashes, pyMod, hne, Bind.bind, Except.bind, Pure.pure, Except.pure]

theorem addLoop_cons (arrays arrays2 : List (List Nat)) (h : Int)
    (rest : List Int) (index : Nat) (arr arr2 : List Nat)
    (g : listGetPy arrays (index : Int) = Except.ok arr)
    (s : listSetPy arr h 1 = Except.ok arr2)
    (s2 : listSetPy arrays (index : Int) arr2 = Except.ok arrays2) :
    addLoop arrays (h :: rest) index = addLoop arrays2 rest (index + 1) := by
  simp [addLoop, g, s, s2, Bind.bind, Except.bind]

theorem addLoop3 (a0 a1 a2 : List Nat) (h1 h2 h3 : Int)
    (p1 : 0 ≤ h1) (q1 : h1.toNat < a0.length)
    (p2 : 0 ≤ h2) (q2 : h2.toNat < a1.length)
    (p3 : 0 ≤ h3) (q3 : h3.toNat < a2.length) :
    addLoop [a0, a1, a2] [h1, h2, h3] 0 =
      Except.ok [a0.set h1.toNat 1, a1.set h2.toNat 1, a2.set h3.toNat 1] := by
  rw [addLoop_cons [a0, a1, a2] [a0.set h1.toNat 1, a1, a2] h1 [h2, h3] 0 a0
        (a0.set h1.toNat 1) (listGetPy3_0 a0 a1 a2) (listSetPy_eq 1 p1 q1)
        (listSetPy3_0 a0 a1 a2 (a0.set h1.toNat 1))]
  rw [addLoop_cons _ [a0.set h1.toNat 1, a1.set h2.toNat 1, a2] h2 [h3] 1 a1
        (a1.set h2.toNat 1) (listGetPy3_1 _ a1 a2) (listSetPy_eq 1 p2 q2)
        (listSetPy3_1 _ a1 a2 (a1.set h2.toNat 1))]
  rw [addLoop_cons _ [a0.set h1.toNat 1, a1.set h2.toNat 1, a2.set h3.toNat 1]
        h3 [] 2 a2 (a2.set h3.toNat 1) (listGetPy3_2 _ _ a2)
        (listSetPy_eq 1 p3 q3) (listSetPy3_2 _ _ a2 (a2.set h3.toNat 1))]
  rfl

theorem checkLoop_cons (arrays : List (List Nat)) (h : Int)
    (rest : List Int) (index : Nat) (arr : List Nat) (v : Nat)
    (g : listGetPy arrays (index : Int) = Except.ok arr)
    (g2 : listGetPy arr h = Except.ok v) :
    checkLoop arrays (h :: rest) index =
      if v = 0 then Except.ok false else checkLoop arrays rest (index + 1) := by
  simp [checkLoop, g, g2, Bind.bind, Except.bind]

theorem checkLoop3 (a0 a1 a2 : List Nat) (h1 h2 h3 : Int)
    (p1 : 0 ≤ h1) (q1 : h1.toNat < a0.length)
    (p2 : 0 ≤ h2) (q2 : h2.toNat < a1.length)
    (p3 : 0 ≤ h3) (q3 : h3.toNat < a2.length) :
    checkLoop [a0, a1, a2] [h1, h2, h3] 0 =
      Except.ok (if a0.getD h1.toNat 0 = 0 then false
        else if a1.getD h2.toNat 0 = 0 then false
        else if a2.getD h3.toNat 0 = 0 then false else true) := by
  rw [checkLoop_cons [a0, a1, a2] h1 [h2, h3] 0 a0 (a0.getD h1.toNat 0)
        (listGetPy3_0 a0 a1 a2) (listGetPy_eq 0 p1 q1)]
  rw [checkLoop_cons [a0, a1, a2] h2 [h3] 1 a1 (a1.getD h2.toNat 0)
        (listGetPy3_1 a0 a1 a2) (listGetPy_eq 0 p2 q2)]
  rw [checkLoop_cons [a0, a1, a2] h3 [] 2 a2 (a2.getD h3.toNat 0)
        (listGetPy3_2 a0 a1 a2) (listGetPy_eq 0 p3 q3)]
  by_cases c1 : a0.getD h1.toNat 0 = 0 <;>
    by_cases c2 : a1.getD h2.toNat 0 = 0 <;>
      by_cases c3 : a2.getD h3.toNat 0 = 0 <;>
        simp_all [checkLoop]

theorem checkLoopS_state (self : BloomFilter) :
    ∀ (hs : List Int) (index : Nat) (b : Bool) (bf2 : BloomFilter),
      checkLoopS self hs index = Except.ok (b, bf2) → bf2 = self := by
  intro hs
  induction hs with
  | nil =>
    intro index b bf2 hyp
    simp [checkLoopS] at hyp
    exact hyp.2.symm
  | cons h rest ih =>
    intro index b bf2 hyp
    simp only [checkLoopS, Bind.bind, Except.bind] at hyp
    cases g : listGetPy self.bit_arrays (index : Int) with
    | error e => simp only [g] at hyp; cases hyp
    | ok arr =>
      simp only [g] at hyp
      cases g2 : listGetPy arr h with
      | error e => simp only [g2] at hyp; cases hyp
      | ok v =>
        simp only [g2] at hyp
        by_cases hv : v = 0
        · rw [if_pos hv] at hyp
          injection hyp with hh
          exact congrArg Prod.snd hh.symm
        · rw [if_neg hv] at hyp
          exact ih _ _ _ hyp

theorem checkLoopS_eq (self : BloomFilter) :
    ∀ (hs : List Int) (index : Nat),
      checkLoopS self hs index =
        Except.map (fun b => (b, self)) (checkLoop self.bit_arrays hs index) := by
  intro hs
  induction hs with
  | nil => intro index; simp [checkLoopS, checkLoop, Except.map]
  | cons h rest ih =>
    intro index
    simp only [checkLoopS, checkLoop, Bind.bind, Except.bind]
    cases g : listGetPy self.bit_arrays (index : Int) with
    | error e => simp [Except.map]
    | ok arr =>
      cases g2 : listGetPy arr h with
      | error e => simp [g2, Except.map]
      | ok v =>
        by_cases hv : v = 0
        · simp [g2, hv, Except.map]
        · simp [g2, hv, ih]

theorem hpos1_bounds (H : HashAlgs) (str : α → String) (bf : BloomFilter)
    (hp : 0 < bf.size) (x : α) :
    (0 : Int) ≤ Int.fmod (H.md5 (str x)) bf.size ∧
      hpos1 H str bf x < bf.size.toNat := by
  have h1 := Int.fmod_nonneg' ((H.md5 (str x) : Int)) hp
  have h2 := Int.fmod_lt_of_pos ((H.md5 (str x) : Int)) hp
  exact ⟨h1, by unfold hpos1; omega⟩

theorem hpos2_bounds (H : HashAlgs) (str : α → String) (bf : BloomFilter)
    (hp : 0 < bf.size) (x : α) :
    (0 : Int) ≤ Int.fmod (H.sha1 (str x)) bf.size ∧
      hpos2 H str bf x < bf.size.toNat := by
  have h1 := Int.fmod_nonneg' ((H.sha1 (str x) : Int)) hp
  have h2 := Int.fmod_lt_of_pos ((H.sha1 (str x) : Int)) hp
  exact ⟨h1, by unfold hpos2; omega⟩

theorem hpos3_bounds (H : HashAlgs) (str : α → String) (bf : BloomFilter)
    (hp : 0 < bf.size) (x : α) :
    (0 : Int) ≤ Int.fmod (H.sha256 (str x)) bf.size ∧
      hpos3 H str bf x < bf.size.toNat := by
  have h1 := Int.fmod_nonneg' ((H.sha256 (str x) : Int)) hp
  have h2 := Int.fmod_lt_of_pos ((H.sha256 (str x) : Int)) hp
  exact ⟨h1, by unfold hpos3; omega⟩

theorem wf_destruct {bf : BloomFilter} (hwf : Wf bf) :
    ∃ a0 a1 a2 : List Nat, bf.bit_arrays = [a0, a1, a2] ∧
      a0.length = bf.size.toNat ∧ a1.length = bf.size.toNat ∧
      a2.length = bf.size.toNat ∧
      (∀ b ∈ a0, b = 0 ∨ b = 1) ∧ (∀ b ∈ a1, b = 0 ∨ b = 1) ∧
      (∀ b ∈ a2, b = 0 ∨ b = 1) := by
  obtain ⟨hp, hlen, hall⟩ := hwf
  obtain ⟨a0, a1, a2, heq⟩ := List.length_eq_three.mp hlen
  have m0 : a0 ∈ bf.bit_arrays := by rw [heq]; simp
  have m1 : a1 ∈ bf.bit_arrays := by rw [heq]; simp
  have m2 : a2 ∈ bf.bit_arrays := by rw [heq]; simp
  exact ⟨a0, a1, a2, heq, (hall a0 m0).1, (hall a1 m1).1, (hall a2 m2).1,
    (hall a0 m0).2, (hall a1 m1).2, (hall a2 m2).2⟩

theorem add_eq {bf : BloomFilter} (H : HashAlgs) (str : α → String)
    (hwf : Wf bf) (x : α) :
    bf.add H str x = Except.ok
      { size := bf.size,
        bit_arrays :=
          [(bf.bit_arrays.getD 0 []).set (hpos1 H str bf x) 1,
           (bf.bit_arrays.getD 1 []).set (hpos2 H str bf x) 1,
           (bf.bit_arrays.getD 2 []).set (hpos3 H str bf x) 1] } := by
  obtain ⟨a0, a1, a2, heq, l0, l1, l2, _, _, _⟩ := wf_destruct hwf
  have hp := hwf.1
  obtain ⟨n1, b1⟩ := hpos1_bounds H str bf hp x
  obtain ⟨n2, b2⟩ := hpos2_bounds H str bf hp x
  obtain ⟨n3, b3⟩ := hpos3_bounds H str bf hp x
  have hloop := addLoop3 a0 a1 a2
    (Int.fmod (H.md5 (str x)) bf.size)
    (Int.fmod (H.sha1 (str x)) bf.size)
    (Int.fmod (H.sha256 (str x)) bf.size)
    n1 (by rw [l0]; exact b1) n2 (by rw [l1]; exact b2) n3 (by rw [l2]; exact b3)
  simp only [BloomFilter.add, Bind.bind, Except.bind, hashes_eq H str bf hp x, heq, hloop]
  simp [heq, hpos1, hpos2, hpos3, Pure.pure, Except.pure]

theorem check_eq {bf : BloomFilter} (H : HashAlgs) (str : α → String)
    (hwf : Wf bf) (x : α) :
    bf.check H str x = Except.ok
      (if (bf.bit_arrays.getD 0 []).getD (hpos1 H str bf x) 0 = 0 then false
       else if (bf.bit_arrays.getD 1 []).getD (hpos2 H str bf x) 0 = 0 then false
       else if (bf.bit_arrays.getD 2 []).getD (hpos3 H str bf x) 0 = 0 then false
       else true) := by
  obtain ⟨a0, a1, a2, heq, l0, l1, l2, _, _, _⟩ := wf_destruct hwf
  have hp := hwf.1
  obtain ⟨n1, b1⟩ := hpos1_bounds H str bf hp x
  obtain ⟨n2, b2⟩ := hpos2_bounds H str bf hp x
  obtain ⟨n3, b3⟩ := hpos3_bounds H str bf hp x
  have hloop := checkLoop3 a0 a1 a2
    (Int.fmod (H.md5 (str x)) bf.size)
    (Int.fmod (H.sha1 (str x)) bf.size)
    (Int.fmod (H.sha256 (str x)) bf.size)
    n1 (by rw [l0]; exact b1) n2 (by rw [l1]; exact b2) n3 (by rw [l2]; exact b3)
  simp only [BloomFilter.check, Bind.bind, Except.bind, hashes_eq H str bf hp x, heq, hloop]
  simp [heq, hpos1, hpos2, hpos3]

theorem getD_set_self {l : List Nat} {j : Nat} (h : j < l.length) (v : Nat) :
    (l.set j v).getD j 0 = v := by
  simp [List.getD_eq_getElem?_getD, List.getElem?_set_self h]

theorem getD_set_ne {l : List Nat} {i j : Nat} (hne : j ≠ i) (v : Nat) :
    (l.set j v).getD i 0 = l.getD i 0 := by
  simp [List.getD_eq_getElem?_getD, List.getElem?_set_ne hne]

theorem getD_big {l : List Nat} {i : Nat} (h : l.length ≤ i) : l.getD i 0 = 0 := by
  simp [List.getD_eq_getElem?_getD, List.getElem?_eq_none h]

theorem wf_add {bf bf2 : BloomFilter} {H : HashAlgs} {str : α → String} {x : α}
    (hwf : Wf bf) (hadd : bf.add H str x = Except.ok bf2) : Wf bf2 := by
  obtain ⟨a0, a1, a2, heq, l0, l1, l2, e0, e1, e2⟩ := wf_destruct hwf
  rw [add_eq H str hwf x] at hadd
  injection hadd with hadd
  subst hadd
  rw [heq]
  have g0 : ([a0, a1, a2] : List (List Nat)).getD 0 [] = a0 := rfl
  have g1 : ([a0, a1, a2] : List (List Nat)).getD 1 [] = a1 := rfl
  have g2 : ([a0, a1, a2] : List (List Nat)).getD 2 [] = a2 := rfl
  rw [g0, g1, g2]
  have mem1 : ∀ (a : List Nat) (p : Nat), (∀ b ∈ a, b = 0 ∨ b = 1) →
      ∀ b ∈ a.set p 1, b = 0 ∨ b = 1 := by
    intro a p ha b hb
    rcases List.mem_or_eq_of_mem_set hb with hmem | hone
    · exact ha b hmem
    · exact Or.inr hone
  refine ⟨hwf.1, rfl, ?_⟩
  intro arr harr
  simp only [List.mem_cons, List.not_mem_nil, or_false] at harr
  rcases harr with h | h | h <;> subst h
  · exact ⟨by simpa using l0, mem1 a0 _ e0⟩
  · exact ⟨by simpa using l1, mem1 a1 _ e1⟩
  · exact ⟨by simpa using l2, mem1 a2 _ e2⟩

theorem getD_default {γ : Type u} (d : γ) {l : List γ} {i : Nat}
    (h : l.length ≤ i) : l.getD i d = d := by
  simp [List.getD_eq_getElem?_getD, List.getElem?_eq_none h]

theorem getD_mem {γ : Type u} (d : γ) {l : List γ} {i : Nat}
    (h : i < l.length) : l.getD i d ∈ l := by
  rw [List.getD_eq_getElem?_getD, List.getElem?_eq_getElem h]
  exact List.getElem?_mem (List.getElem?_eq_getElem h)

theorem set_one_mono {l : List Nat} {p j : Nat} (h : l.getD j 0 = 1) :
    (l.set p 1).getD j 0 = 1 := by
  by_cases hj : j = p
  · subst hj
    by_cases hp : j < l.length
    · rw [getD_set_self hp]
    · rw [getD_big (by omega)] at h
      cases h
  · rw [getD_set_ne (Ne.symm hj) 1]
    exact h

theorem bitsLE_refl (bf : BloomFilter) : BitsLE bf bf :=
  ⟨rfl, rfl, fun _ => ⟨rfl, fun _ h => h⟩⟩

theorem bitsLE_trans {b1 b2 b3 : BloomFilter} (h12 : BitsLE b1 b2)
    (h23 : BitsLE b2 b3) : BitsLE b1 b3 := by
  obtain ⟨s12, l12, f12⟩ := h12
  obtain ⟨s23, l23, f23⟩ := h23
  exact ⟨s23.trans s12, l23.trans l12, fun i =>
    ⟨(f23 i).1.trans (f12 i).1, fun j h => (f23 i).2 j ((f12 i).2 j h)⟩⟩

theorem bitsLE_add {bf bf2 : BloomFilter} {H : HashAlgs} {str : α → String}
    {x : α} (hwf : Wf bf) (hadd : bf.add H str x = Except.ok bf2) :
    BitsLE bf bf2 := by
  obtain ⟨a0, a1, a2, heq, l0, l1, l2, e0, e1, e2⟩ := wf_destruct hwf
  rw [add_eq H str hwf x] at hadd
  injection hadd with hadd
  subst hadd
  refine ⟨rfl, by simp [heq], ?_⟩
  intro i
  rw [heq]
  have g0 : ([a0, a1, a2] : List (List Nat)).getD 0 [] = a0 := rfl
  have g1 : ([a0, a1, a2] : List (List Nat)).getD 1 [] = a1 := rfl
  have g2 : ([a0, a1, a2] : List (List Nat)).getD 2 [] = a2 := rfl
  rw [g0, g1, g2]
  match i with
  | 0 => exact ⟨by simp, fun j h => set_one_mono h⟩
  | 1 => exact ⟨by simp, fun j h => set_one_mono h⟩
  | 2 => exact ⟨by simp, fun j h => set_one_mono h⟩
  | (n + 3) =>
    constructor
    · rfl
    · intro j h
      rw [getD_default [] (by simp)] at h
      rw [getD_default [] (by simp)]
      exact h

theorem wf_cell {bf : BloomFilter} (hwf : Wf bf) (i j : Nat) :
    (bf.bit_arrays.getD i []).getD j 0 = 0 ∨
      (bf.bit_arrays.getD i []).getD j 0 = 1 := by
  by_cases hi : i < bf.bit_arrays.length
  · have hmem : bf.bit_arrays.getD i [] ∈ bf.bit_arrays := getD_mem [] hi
    have hprops := (hwf.2.2 _ hmem).2
    by_cases hj : j < (bf.bit_arrays.getD i []).length
    · exact hprops _ (getD_mem 0 hj)
    · left
      exact getD_big (by omega)
  · left
    rw [getD_default [] (by omega)]
    exact getD_big (by simp)

theorem check_true_iff (H : HashAlgs) (str : α → String) {bf : BloomFilter}
    (hwf : Wf bf) (x : α) :
    bf.check H str x = Except.ok true ↔
      ((bf.bit_arrays.getD 0 []).getD (hpos1 H str bf x) 0 = 1 ∧
       (bf.bit_arrays.getD 1 []).getD (hpos2 H str bf x) 0 = 1 ∧
       (bf.bit_arrays.getD 2 []).getD (hpos3 H str bf x) 0 = 1) := by
  rw [check_eq H str hwf x]
  constructor
  · intro h
    injection h with h
    by_cases c1 : (bf.bit_arrays.getD 0 []).getD (hpos1 H str bf x) 0 = 0
    · rw [if_pos c1] at h; cases h
    · rw [if_neg c1] at h
      by_cases c2 : (bf.bit_arrays.getD 1 []).getD (hpos2 H str bf x) 0 = 0
      · rw [if_pos c2] at h; cases h
      · rw [if_neg c2] at h
        by_cases c3 : (bf.bit_arrays.getD 2 []).getD (hpos3 H str bf x) 0 = 0
        · rw [if_pos c3] at h; cases h
        · exact ⟨(wf_cell hwf 0 _).resolve_left c1,
            (wf_cell hwf 1 _).resolve_left c2,
            (wf_cell hwf 2 _).resolve_left c3⟩
  · intro h
    obtain ⟨h1, h2, h3⟩ := h
    rw [if_neg (by omega), if_neg (by omega), if_neg (by omega)]

theorem hpos_congr (H : HashAlgs) (str : α → String) {bf bf2 : BloomFilter}
    (hs : bf2.size = bf.size) (x : α) :
    hpos1 H str bf2 x = hpos1 H str bf x ∧
      hpos2 H str bf2 x = hpos2 H str bf x ∧
      hpos3 H str bf2 x = hpos3 H str bf x := by
  unfold hpos1 hpos2 hpos3
  rw [hs]
  exact ⟨rfl, rfl, rfl⟩

theorem check_true_mono (H : HashAlgs) (str : α → String) {bf bf2 : BloomFilter}
    (hwf : Wf bf) (hwf2 : Wf bf2) (hle : BitsLE bf bf2) (x : α)
    (hc : bf.check H str x = Except.ok true) :
    bf2.check H str x = Except.ok true := by
  rw [check_true_iff H str hwf x] at hc
  rw [check_true_iff H str hwf2 x]
  obtain ⟨p1, p2, p3⟩ := hpos_congr H str hle.1 x
  rw [p1, p2, p3]
  exact ⟨(hle.2.2 0).2 _ hc.1, (hle.2.2 1).2 _ hc.2.1, (hle.2.2 2).2 _ hc.2.2⟩

theorem check_after_add (H : HashAlgs) (str : α → String) {bf bf2 : BloomFilter}
    (hwf : Wf bf) {x : α} (hadd : bf.add H str x = Except.ok bf2) :
    bf2.check H str x = Except.ok true := by
  have hwf2 := wf_add hwf hadd
  rw [check_true_iff H str hwf2 x]
  have hsz : bf2.size = bf.size := by
    rw [add_eq H str hwf x] at hadd
    injection hadd with hadd
    subst hadd
    rfl
  obtain ⟨p1, p2, p3⟩ := hpos_congr H str hsz x
  rw [p1, p2, p3]
  obtain ⟨a0, a1, a2, heq, l0, l1, l2, e0, e1, e2⟩ := wf_destruct hwf
  rw [add_eq H str hwf x] at hadd
  injection hadd with hadd
  subst hadd
  rw [heq]
  have g0 : ([a0, a1, a2] : List (List Nat)).getD 0 [] = a0 := rfl
  have g1 : ([a0, a1, a2] : List (List Nat)).getD 1 [] = a1 := rfl
  have g2 : ([a0, a1, a2] : List (List Nat)).getD 2 [] = a2 := rfl
  rw [g0, g1, g2]
  have hp := hwf.1
  refine ⟨?_, ?_, ?_⟩
  · exact getD_set_self (by rw [l0]; exact (hpos1_bounds H str bf hp x).2) 1
  · exact getD_set_self (by rw [l1]; exact (hpos2_bounds H str bf hp x).2) 1
  · exact getD_set_self (by rw [l2]; exact (hpos3_bounds H str bf hp x).2) 1

theorem addAll_wf_bitsLE (H : HashAlgs) (str : α → String) :
    ∀ (items : List α) {bf bf2 : BloomFilter}, Wf bf →
      bf.addAll H str items = Except.ok bf2 → Wf bf2 ∧ BitsLE bf bf2 := by
  intro items
  induction items with
  | nil =>
    intro bf bf2 hwf h
    simp [BloomFilter.addAll] at h
    subst h
    exact ⟨hwf, bitsLE_refl bf⟩
  | cons y ys ih =>
    intro bf bf2 hwf h
    simp only [BloomFilter.addAll, Bind.bind, Except.bind] at h
    cases g : bf.add H str y with
    | error e => simp only [g] at h; cases h
    | ok bfm =>
      simp only [g] at h
      have hwfm := wf_add hwf g
      obtain ⟨hwf2, hle⟩ := ih hwfm h
      exact ⟨hwf2, bitsLE_trans (bitsLE_add hwf g) hle⟩

theorem wf_new {size : Int} (hp : 0 < size) : Wf (BloomFilter.new size) := by
  refine ⟨hp, rfl, ?_⟩
  intro arr harr
  simp only [BloomFilter.new] at harr
  have harr2 := List.eq_of_mem_replicate harr
  subst harr2
  constructor
  · simp [BloomFilter.new]
  · intro b hb
    exact Or.inl (List.eq_of_mem_replicate hb)

theorem getD_replicate_zero (n j : Nat) :
    (List.replicate n (0 : Nat)).getD j 0 = 0 := by
  rw [List.getD_eq_getElem?_getD, List.getElem?_replicate]
  split <;> rfl

theorem hashes_size_zero (H : HashAlgs) (str : α → String) {bf : BloomFilter}
    (h : bf.size = 0) (x : α) :
    bf.hashes H str x = Except.error PyError.zeroDivisionError := by
  simp [BloomFilter.hashes, pyMod, h, Bind.bind, Except.bind]

theorem add_size_zero (H : HashAlgs) (str : α → String) {bf : BloomFilter}
    (h : bf.size = 0) (x : α) :
    bf.add H str x = Except.error PyError.zeroDivisionError := by
  simp [BloomFilter.add, hashes_size_zero H str h x, Bind.bind, Except.bind]

theorem check_size_zero (H : HashAlgs) (str : α → String) {bf : BloomFilter}
    (h : bf.size = 0) (x : α) :
    bf.check H str x = Except.error PyError.zeroDivisionError := by
  simp [BloomFilter.check, hashes_size_zero H str h x, Bind.bind, Except.bind]

/-- C1: No false negatives — for every well-formed filter instance and
every item `x`, after `add(x)` has been called, `check(x)` returns
`true`, regardless of which items were inserted before (`pre`) or after
(`post`) and in which order. -/
theorem claim_no_false_negatives {α : Type u} (H : HashAlgs) (str : α → String)
    {bf bf1 bf2 bf3 : BloomFilter} (hwf : Wf bf) (x : α) (pre post : List α)
    (h1 : bf.addAll H str pre = Except.ok bf1)
    (h2 : bf1.add H str x = Except.ok bf2)
    (h3 : bf2.addAll H str post = Except.ok bf3) :
    bf3.check H str x = Except.ok true := by
  obtain ⟨hwf1, _⟩ := addAll_wf_bitsLE H str pre hwf h1
  have hwf2 := wf_add hwf1 h2
  obtain ⟨hwf3, hle⟩ := addAll_wf_bitsLE H str post hwf2 h3
  exact check_true_mono H str hwf2 hwf3 hle x (check_after_add H str hwf1 h2)

/-- Witness for C1: size-5 filter, insert "a", then "bb", then "ccc";
check "bb" is true. -/
theorem claim_no_false_negatives_witness :
    BloomFilter.check demoAlgs id ⟨5, [[0,1,1,1,0],[1,0,1,1,0],[0,1,0,1,1]]⟩ "bb"
      = Except.ok true :=
  @claim_no_false_negatives String demoAlgs id (BloomFilter.new 5)
    ⟨5, [[0,1,0,0,0],[0,0,0,1,0],[0,0,0,1,0]]⟩
    ⟨5, [[0,1,1,0,0],[1,0,0,1,0],[0,1,0,1,0]]⟩
    ⟨5, [[0,1,1,1,0],[1,0,1,1,0],[0,1,0,1,1]]⟩
    (by decide) "bb" ["a"] ["ccc"] rfl rfl rfl

/-- C2 (counterexample): the claim says `new(0)` and `new(-5)` fail with
`InvalidCapacity`; in the code the constructor performs no validation —
both calls succeed and return a filter whose three bit arrays are empty,
while only the spec-modelled constructor `specNew` fails. -/
theorem claim_construction_validation_cex :
    BloomFilter.new 0 = { size := 0, bit_arrays := [[], [], []] } ∧
      BloomFilter.new (-5) = { size := -5, bit_arrays := [[], [], []] } ∧
      specNew 0 = Except.error SpecError.invalidCapacity ∧
      specNew (-5) = Except.error SpecError.invalidCapacity :=
  ⟨rfl, rfl, rfl, rfl⟩

/-- C2 (amended): construction never validates `size` and never fails:
`new(0)` and `new(-5)` succeed, yielding filters whose three bit arrays
are empty; construction with a positive size succeeds and yields a
well-formed filter with all bits cleared. -/
theorem claim_construction_validation (size : Int) (hp : 0 < size) :
    (BloomFilter.new 0).bit_arrays = [[], [], []] ∧
      (BloomFilter.new (-5)).bit_arrays = [[], [], []] ∧
      (BloomFilter.new size).size = size ∧
      (BloomFilter.new size).bit_arrays =
        List.replicate 3 (List.replicate size.toNat 0) ∧
      Wf (BloomFilter.new size) :=
  ⟨rfl, rfl, rfl, rfl, wf_new hp⟩

/-- Witness for C2 (amended) at `size = 50`. -/
theorem claim_construction_validation_witness :
    0 < (50 : Int) ∧
      ((BloomFilter.new 0).bit_arrays = [[], [], []] ∧
        (BloomFilter.new (-5)).bit_arrays = [[], [], []] ∧
        (BloomFilter.new 50).size = 50 ∧
        (BloomFilter.new 50).bit_arrays =
          List.replicate 3 (List.replicate (50 : Int).toNat 0) ∧
        Wf (BloomFilter.new 50)) :=
  ⟨by decide, claim_construction_validation 50 (by decide)⟩

/-- C3: Empty-filter correctness — on a freshly constructed filter with
`size ≥ 1` and no insertions, `check(x)` returns `false` for every item. -/
theorem claim_empty_filter {α : Type u} (H : HashAlgs) (str : α → String)
    (size : Int) (hp : 0 < size) (x : α) :
    (BloomFilter.new size).check H str x = Except.ok false := by
  have hwf := wf_new hp
  rw [check_eq H str hwf x]
  have c1 : ((BloomFilter.new size).bit_arrays.getD 0 []).getD
      (hpos1 H str (BloomFilter.new size) x) 0 = 0 := by
    have e : (BloomFilter.new size).bit_arrays.getD 0 [] =
        List.replicate size.toNat 0 := rfl
    rw [e]
    exact getD_replicate_zero _ _
  rw [if_pos c1]

/-- Witness for C3 at `size = 5`, item "a". -/
theorem claim_empty_filter_witness :
    0 < (5 : Int) ∧ (BloomFilter.new 5).check demoAlgs id "a" = Except.ok false :=
  ⟨by decide, claim_empty_filter demoAlgs id 5 (by decide) "a"⟩

/-- C4: Monotonicity — over any sequence of `add` calls the set of set
bits is non-decreasing (`BitsLE`), and for every fixed item the result
of `check` can only move from `false` to `true`: a `true` answer is
preserved by any further insertions. -/
theorem claim_monotonicity {α : Type u} (H : HashAlgs) (str : α → String)
    {bf bf2 : BloomFilter} (hwf : Wf bf) (items : List α)
    (h : bf.addAll H str items = Except.ok bf2) :
    BitsLE bf bf2 ∧
      ∀ y : α, bf.check H str y = Except.ok true →
        bf2.check H str y = Except.ok true := by
  obtain ⟨hwf2, hle⟩ := addAll_wf_bitsLE H str items hwf h
  exact ⟨hle, fun y hc => check_true_mono H str hwf hwf2 hle y hc⟩

/-- Witness for C4: size-5 filter, adding "a" then "bb". -/
theorem claim_monotonicity_witness :
    BitsLE (BloomFilter.new 5) ⟨5, [[0,1,1,0,0],[1,0,0,1,0],[0,1,0,1,0]]⟩ ∧
      ∀ y : String, (BloomFilter.new 5).check demoAlgs id y = Except.ok true →
        BloomFilter.check demoAlgs id ⟨5, [[0,1,1,0,0],[1,0,0,1,0],[0,1,0,1,0]]⟩ y
          = Except.ok true :=
  @claim_monotonicity String demoAlgs id (BloomFilter.new 5)
    ⟨5, [[0,1,1,0,0],[1,0,0,1,0],[0,1,0,1,0]]⟩ (by decide) ["a", "bb"] rfl

/-- C5: Idempotence of insertion — if `add(x)` turned state `bf` into
`bf1`, running `add(x)` again succeeds and leaves the state exactly
`bf1`. -/
theorem claim_add_idempotent {α : Type u} (H : HashAlgs) (str : α → String)
    {bf bf1 : BloomFilter} (hwf : Wf bf) (x : α)
    (h : bf.add H str x = Except.ok bf1) :
    bf1.add H str x = Except.ok bf1 := by
  have hwf1 := wf_add hwf h
  rw [add_eq H str hwf x] at h
  injection h with h
  rw [add_eq H str hwf1 x]
  subst h
  simp [hpos1, hpos2, hpos3, List.set_set]

/-- Witness for C5: adding "a" twice to a size-5 filter. -/
theorem claim_add_idempotent_witness :
    BloomFilter.add demoAlgs id ⟨5, [[0,1,0,0,0],[0,0,0,1,0],[0,0,0,1,0]]⟩ "a"
      = Except.ok ⟨5, [[0,1,0,0,0],[0,0,0,1,0],[0,0,0,1,0]]⟩ :=
  @claim_add_idempotent String demoAlgs id (BloomFilter.new 5)
    ⟨5, [[0,1,0,0,0],[0,0,0,1,0],[0,0,0,1,0]]⟩ (by decide) "a" rfl

/-- C6: Hash-position contract — for every filter with `size ≥ 1` and
every item, `_hashes` returns exactly 3 indices, each a digest reduced
modulo `size` and lying in `[0, size-1]`, in the fixed order
md5, sha1, sha256 (so the same item always yields the same sequence for
a given filter instance). -/
theorem claim_hash_positions {α : Type u} (H : HashAlgs) (str : α → String)
    {bf : BloomFilter} (hp : 0 < bf.size) (x : α) :
    ∃ l : List Int, bf.hashes H str x = Except.ok l ∧ l.length = 3 ∧
      l = [Int.fmod (H.md5 (str x)) bf.size,
           Int.fmod (H.sha1 (str x)) bf.size,
           Int.fmod (H.sha256 (str x)) bf.size] ∧
      ∀ h ∈ l, 0 ≤ h ∧ h < bf.size := by
  refine ⟨_, hashes_eq H str bf hp x, rfl, rfl, ?_⟩
  intro h hmem
  simp only [List.mem_cons, List.not_mem_nil, or_false] at hmem
  rcases hmem with h1 | h2 | h3
  · subst h1; exact ⟨Int.fmod_nonneg' _ hp, Int.fmod_lt_of_pos _ hp⟩
  · subst h2; exact ⟨Int.fmod_nonneg' _ hp, Int.fmod_lt_of_pos _ hp⟩
  · subst h3; exact ⟨Int.fmod_nonneg' _ hp, Int.fmod_lt_of_pos _ hp⟩

/-- Witness for C6 on a size-5 filter and item "a". -/
theorem claim_hash_positions_witness :
    0 < (BloomFilter.new 5).size ∧
      ∃ l : List Int, (BloomFilter.new 5).hashes demoAlgs id "a" = Except.ok l ∧
        l.length = 3 ∧
        l = [Int.fmod (demoAlgs.md5 (id "a")) (BloomFilter.new 5).size,
             Int.fmod (demoAlgs.sha1 (id "a")) (BloomFilter.new 5).size,
             Int.fmod (demoAlgs.sha256 (id "a")) (BloomFilter.new 5).size] ∧
        ∀ h ∈ l, 0 ≤ h ∧ h < (BloomFilter.new 5).size :=
  ⟨by decide, claim_hash_positions demoAlgs id (by decide) "a"⟩

/-- C7: `check` is a pure read — threading the object state through the
translation of `check` returns the state unchanged, the result agrees
with `check`, and an immediate repeat returns the same answer and the
same state. -/
theorem claim_check_pure_read {α : Type u} (H : HashAlgs) (str : α → String)
    (bf : BloomFilter) (x : α) {b : Bool} {bf2 : BloomFilter}
    (h : bf.checkS H str x = Except.ok (b, bf2)) :
    bf2 = bf ∧ bf.check H str x = Except.ok b ∧
      bf2.checkS H str x = Except.ok (b, bf2) := by
  have hmap : bf.checkS H str x =
      Except.map (fun c => (c, bf)) (bf.check H str x) := by
    simp only [BloomFilter.checkS, BloomFilter.check, Bind.bind, Except.bind]
    cases g : bf.hashes H str x with
    | error e => simp [Except.map]
    | ok hs => exact checkLoopS_eq bf hs 0
  rw [hmap] at h
  cases g : bf.check H str x with
  | error e =>
    rw [g] at h
    simp only [Except.map] at h
    exact absurd h (by simp)
  | ok c =>
    rw [g] at h
    simp only [Except.map] at h
    injection h with h
    rw [Prod.mk.injEq] at h
    obtain ⟨hcb, hbf⟩ := h
    subst hcb
    subst hbf
    refine ⟨rfl, rfl, ?_⟩
    rw [hmap, g]
    simp [Except.map]

/-- Witness for C7: a fresh size-5 filter, item "a". -/
theorem claim_check_pure_read_witness :
    (⟨5, [[0,0,0,0,0],[0,0,0,0,0],[0,0,0,0,0]]⟩ : BloomFilter) = BloomFilter.new 5 ∧
      (BloomFilter.new 5).check demoAlgs id "a" = Except.ok false ∧
      BloomFilter.checkS demoAlgs id
          ⟨5, [[0,0,0,0,0],[0,0,0,0,0],[0,0,0,0,0]]⟩ "a"
        = Except.ok (false, ⟨5, [[0,0,0,0,0],[0,0,0,0,0],[0,0,0,0,0]]⟩) :=
  @claim_check_pure_read String demoAlgs id (BloomFilter.new 5) "a" false
    ⟨5, [[0,0,0,0,0],[0,0,0,0,0],[0,0,0,0,0]]⟩ rfl

/-- C8: String-coercion equivalence — items with equal canonical string
representations are indistinguishable: same hash positions, same effect
of `add`, same result of `check`, and after `add(a)` a `check(b)` with
`str a = str b` returns `true`. -/
theorem claim_string_coercion {α : Type u} (H : HashAlgs) (str : α → String)
    {bf bf1 : BloomFilter} (hwf : Wf bf) (a b : α) (hstr : str a = str b) :
    bf.hashes H str a = bf.hashes H str b ∧
      bf.add H str a = bf.add H str b ∧
      bf.check H str a = bf.check H str b ∧
      (bf.add H str a = Except.ok bf1 → bf1.check H str b = Except.ok true) := by
  have e1 : ∀ bfa : BloomFilter, bfa.hashes H str a = bfa.hashes H str b := by
    intro bfa
    simp [BloomFilter.hashes, hstr]
  refine ⟨e1 bf, ?_, ?_, ?_⟩
  · simp [BloomFilter.add, e1 bf]
  · simp [BloomFilter.check, e1 bf]
  · intro hadd
    have ht := check_after_add H str hwf hadd
    have e4 : bf1.check H str a = bf1.check H str b := by
      simp [BloomFilter.check, e1 bf1]
    rw [← e4]
    exact ht

/-- Witness for C8: pairs stringified by their first component; the
items (1,2) and (1,3) both stringify to "1". -/
theorem claim_string_coercion_witness :
    (BloomFilter.new 3).hashes demoAlgs (fun p : Nat × Nat => toString p.1) (1, 2)
        = (BloomFilter.new 3).hashes demoAlgs (fun p : Nat × Nat => toString p.1) (1, 3) ∧
      (BloomFilter.new 3).add demoAlgs (fun p : Nat × Nat => toString p.1) (1, 2)
        = (BloomFilter.new 3).add demoAlgs (fun p : Nat × Nat => toString p.1) (1, 3) ∧
      (BloomFilter.new 3).check demoAlgs (fun p : Nat × Nat => toString p.1) (1, 2)
        = (BloomFilter.new 3).check demoAlgs (fun p : Nat × Nat => toString p.1) (1, 3) ∧
      ((BloomFilter.new 3).add demoAlgs (fun p : Nat × Nat => toString p.1) (1, 2)
          = Except.ok ⟨3, [[0,1,0],[1,0,0],[0,0,1]]⟩ →
        BloomFilter.check demoAlgs (fun p : Nat × Nat => toString p.1)
            ⟨3, [[0,1,0],[1,0,0],[0,0,1]]⟩ (1, 3)
          = Except.ok true) :=
  @claim_string_coercion (Nat × Nat) demoAlgs (fun p => toString p.1)
    (BloomFilter.new 3) ⟨3, [[0,1,0],[1,0,0],[0,0,1]]⟩ (by decide) (1, 2) (1, 3) rfl

/-- C9: constructing with `size = 0` succeeds, yielding three empty bit
arrays, and on any filter whose size is 0 every `add` and every `check`
fails with `ZeroDivisionError` (raised when the digest is reduced
modulo `size`); the failure comes from the operation, not from
construction. -/
theorem claim_size_zero_div {α : Type u} (H : HashAlgs) (str : α → String)
    (x : α) {bf : BloomFilter} (h0 : bf.size = 0) :
    BloomFilter.new 0 = { size := 0, bit_arrays := [[], [], []] } ∧
      bf.add H str x = Except.error PyError.zeroDivisionError ∧
      bf.check H str x = Except.error PyError.zeroDivisionError :=
  ⟨rfl, add_size_zero H str h0 x, check_size_zero H str h0 x⟩

/-- Witness for C9 on the filter built by `new 0`, item "a". -/
theorem claim_size_zero_div_witness :
    (BloomFilter.new 0).size = 0 ∧
      (BloomFilter.new 0 = { size := 0, bit_arrays := [[], [], []] } ∧
        (BloomFilter.new 0).add demoAlgs id "a"
          = Except.error PyError.zeroDivisionError ∧
        (BloomFilter.new 0).check demoAlgs id "a"
          = Except.error PyError.zeroDivisionError) :=
  ⟨rfl, claim_size_zero_div demoAlgs id "a" rfl⟩

/-- C10: frame property of `add` — a successful `add(x)` keeps `size`,
the number of bit arrays and each array's length unchanged, sets the
cell at each array's hash position for `x` to 1, and leaves every other
cell of every array unchanged (so at most one cell per array changes). -/
theorem claim_add_frame {α : Type u} (H : HashAlgs) (str : α → String)
    {bf bf2 : BloomFilter} (hwf : Wf bf) (x : α)
    (hadd : bf.add H str x = Except.ok bf2) :
    bf2.size = bf.size ∧
      bf2.bit_arrays.length = bf.bit_arrays.length ∧
      (∀ i, (bf2.bit_arrays.getD i []).length = (bf.bit_arrays.getD i []).length) ∧
      (∀ j, j ≠ hpos1 H str bf x →
        (bf2.bit_arrays.getD 0 []).getD j 0 = (bf.bit_arrays.getD 0 []).getD j 0) ∧
      (∀ j, j ≠ hpos2 H str bf x →
        (bf2.bit_arrays.getD 1 []).getD j 0 = (bf.bit_arrays.getD 1 []).getD j 0) ∧
      (∀ j, j ≠ hpos3 H str bf x →
        (bf2.bit_arrays.getD 2 []).getD j 0 = (bf.bit_arrays.getD 2 []).getD j 0) ∧
      (bf2.bit_arrays.getD 0 []).getD (hpos1 H str bf x) 0 = 1 ∧
      (bf2.bit_arrays.getD 1 []).getD (hpos2 H str bf x) 0 = 1 ∧
      (bf2.bit_arrays.getD 2 []).getD (hpos3 H str bf x) 0 = 1 := by
  obtain ⟨a0, a1, a2, heq, l0, l1, l2, e0, e1, e2⟩ := wf_destruct hwf
  have hp := hwf.1
  rw [add_eq H str hwf x] at hadd
  injection hadd with hadd
  subst hadd
  rw [heq]
  have g0 : ([a0, a1, a2] : List (List Nat)).getD 0 [] = a0 := rfl
  have g1 : ([a0, a1, a2] : List (List Nat)).getD 1 [] = a1 := rfl
  have g2 : ([a0, a1, a2] : List (List Nat)).getD 2 [] = a2 := rfl
  rw [g0, g1, g2]
  refine ⟨rfl, rfl, ?_, ?_, ?_, ?_, ?_, ?_, ?_⟩
  · intro i
    match i with
    | 0 => simp
    | 1 => simp
    | 2 => simp
    | (n + 3) => rfl
  · intro j hj
    exact getD_set_ne (Ne.symm hj) 1
  · intro j hj
    exact getD_set_ne (Ne.symm hj) 1
  · intro j hj
    exact getD_set_ne (Ne.symm hj) 1
  · exact getD_set_self (by rw [l0]; exact (hpos1_bounds H str bf hp x).2) 1
  · exact getD_set_self (by rw [l1]; exact (hpos2_bounds H str bf hp x).2) 1
  · exact getD_set_self (by rw [l2]; exact (hpos3_bounds H str bf hp x).2) 1

/-- Witness for C10: adding "a" to a fresh size-5 filter. -/
theorem claim_add_frame_witness :
    (⟨5, [[0,1,0,0,0],[0,0,0,1,0],[0,0,0,1,0]]⟩ : BloomFilter).size
        = (BloomFilter.new 5).size ∧
      (⟨5, [[0,1,0,0,0],[0,0,0,1,0],[0,0,0,1,0]]⟩ : BloomFilter).bit_arrays.length
        = (BloomFilter.new 5).bit_arrays.length ∧
      (∀ i, (BloomFilter.bit_arrays ⟨5, [[0,1,0,0,0],[0,0,0,1,0],[0,0,0,1,0]]⟩ |>.getD i []).length
        = ((BloomFilter.new 5).bit_arrays.getD i []).length) ∧
      (∀ j, j ≠ hpos1 demoAlgs id (BloomFilter.new 5) "a" →
        (BloomFilter.bit_arrays ⟨5, [[0,1,0,0,0],[0,0,0,1,0],[0,0,0,1,0]]⟩ |>.getD 0 []).getD j 0
          = ((BloomFilter.new 5).bit_arrays.getD 0 []).getD j 0) ∧
      (∀ j, j ≠ hpos2 demoAlgs id (BloomFilter.new 5) "a" →
        (BloomFilter.bit_arrays ⟨5, [[0,1,0,0,0],[0,0,0,1,0],[0,0,0,1,0]]⟩ |>.getD 1 []).getD j 0
          = ((BloomFilter.new 5).bit_arrays.getD 1 []).getD j 0) ∧
      (∀ j, j ≠ hpos3 demoAlgs id (BloomFilter.new 5) "a" →
        (BloomFilter.bit_arrays ⟨5, [[0,1,0,0,0],[0,0,0,1,0],[0,0,0,1,0]]⟩ |>.getD 2 []).getD j 0
          = ((BloomFilter.new 5).bit_arrays.getD 2 []).getD j 0) ∧
      (BloomFilter.bit_arrays ⟨5, [[0,1,0,0,0],[0,0,0,1,0],[0,0,0,1,0]]⟩ |>.getD 0 []).getD
          (hpos1 demoAlgs id (BloomFilter.new 5) "a") 0 = 1 ∧
      (BloomFilter.bit_arrays ⟨5, [[0,1,0,0,0],[0,0,0,1,0],[0,0,0,1,0]]⟩ |>.getD 1 []).getD
          (hpos2 demoAlgs id (BloomFilter.new 5) "a") 0 = 1 ∧
      (BloomFilter.bit_arrays ⟨5, [[0,1,0,0,0],[0,0,0,1,0],[0,0,0,1,0]]⟩ |>.getD 2 []).getD
          (hpos3 demoAlgs id (BloomFilter.new 5) "a") 0 = 1 :=
  @claim_add_frame String demoAlgs id (BloomFilter.new 5)
    ⟨5, [[0,1,0,0,0],[0,0,0,1,0],[0,0,0,1,0]]⟩ (by decide) "a" rfl
